import Mathlib

/-!
Verification of the origin-detection engine of
`analizador_etiquetas_aceite_ocr.py` (class `AnalizadorEtiquetasAceiteOCR`).

The Python code detects country-of-origin mentions in label text using a
list of regular expressions (compiled with `re.IGNORECASE | re.MULTILINE`),
splits the selected capture group on separators, cleans each token and
normalizes it through a table.  We shallowly embed that logic here:

* strings are `List Char` internally (`String` at the API boundary);
* each regular expression from `patrones_origen` is translated node by node
  into the `RE` syntax tree below, and `mtch` is a backtracking matcher that
  reproduces CPython `re` semantics on that fragment: ordered alternation,
  greedy (`*`, `+`, `?`) and lazy (`*?`) quantifiers, leftmost match,
  capture groups recording the last span they matched;
* `finditer` reproduces `re.finditer` (scan left to right, non-overlapping);
* character classes are modelled over the character repertoire that actually
  occurs in the patterns and tables (ASCII plus the Spanish accented
  letters); Python's Unicode-wide `\d`, `\s` and case folding are modelled
  as ASCII digits, ASCII whitespace and ASCII+Spanish-accent folding, which
  agree with Python on every character mentioned in the program.

Python's `set` is modelled as `Finset String`.
-/

namespace Aceite

/-- ASCII whitespace, the characters Python's `\s` and `str.strip()` treat
as whitespace in the ASCII range. -/
def isWS (c : Char) : Bool :=
  c = ' ' || c = '\t' || c = '\n' || c = '\r' || c = '\x0b' || c = '\x0c'

/-- ASCII decimal digit, modelling Python's `\d`. -/
def isDig (c : Char) : Bool :=
  '0' ≤ c && c ≤ '9'

/-- ASCII letter: the set matched by the class `[A-Z]` (equally `[a-z]`)
under `re.IGNORECASE`. -/
def isAsciiAlpha (c : Char) : Bool :=
  ('A' ≤ c && c ≤ 'Z') || ('a' ≤ c && c ≤ 'z')

/-- Lowercasing of one character, modelling Python's `str.lower()` on the
characters used by the program: ASCII letters plus the Spanish accented
capitals appearing in the patterns and tables. -/
def pyLowerC (c : Char) : Char :=
  if 'A' ≤ c && c ≤ 'Z' then Char.ofNat (c.toNat + 32)
  else if c = 'Á' then 'á' else if c = 'É' then 'é'
  else if c = 'Í' then 'í' else if c = 'Ó' then 'ó'
  else if c = 'Ú' then 'ú' else if c = 'Ñ' then 'ñ'
  else if c = 'Ü' then 'ü' else c

/-- Uppercasing of one character (for `str.title()`), same repertoire. -/
def pyUpperC (c : Char) : Char :=
  if 'a' ≤ c && c ≤ 'z' then Char.ofNat (c.toNat - 32)
  else if c = 'á' then 'Á' else if c = 'é' then 'É'
  else if c = 'í' then 'Í' else if c = 'ó' then 'Ó'
  else if c = 'ú' then 'Ú' else if c = 'ñ' then 'Ñ'
  else if c = 'ü' then 'Ü' else c

/-- A character the program's texts treat as cased (for `str.title()`
word boundaries): ASCII letters plus Spanish accented letters. -/
def isLetterC (c : Char) : Bool :=
  isAsciiAlpha c || c = 'á' || c = 'é' || c = 'í' || c = 'ó' || c = 'ú' ||
  c = 'ñ' || c = 'ü' || c = 'Á' || c = 'É' || c = 'Í' || c = 'Ó' ||
  c = 'Ú' || c = 'Ñ' || c = 'Ü'

def pyLowerL (l : List Char) : List Char := l.map pyLowerC

/-- Python `str.strip()` on a character list (ASCII whitespace). -/
def stripL (l : List Char) : List Char :=
  ((l.dropWhile isWS).reverse.dropWhile isWS).reverse

/-- Python `str.title()`: each cased character is uppercased when the
previous character is not cased, lowercased otherwise. -/
def pyTitleGo : Bool → List Char → List Char
  | _, [] => []
  | prev, c :: cs =>
      (if isLetterC c then (if prev then pyLowerC c else pyUpperC c) else c) ::
        pyTitleGo (isLetterC c) cs

def pyTitleL (l : List Char) : List Char := pyTitleGo false l

def pyLowerS (s : String) : String := ⟨pyLowerL s.data⟩
def stripS (s : String) : String := ⟨stripL s.data⟩
def pyTitleS (s : String) : String := ⟨pyTitleL s.data⟩

/-! ## Regular-expression syntax and Python-style backtracking matcher -/

/-- Syntax of the regular-expression fragment used by `patrones_origen`:
single-character classes, concatenation, ordered alternation, greedy or
lazy Kleene star, greedy option, and numbered capture groups. -/
inductive RE where
  | eps : RE
  | cls : (Char → Bool) → RE
  | seq : RE → RE → RE
  | alt : RE → RE → RE
  | star : RE → Bool → RE      -- second argument true = lazy (`*?`)
  | opt : RE → RE
  | grp : Nat → RE → RE

/-- Recorded capture spans: `(group index, start, stop)`; the head entry for
a group index is the most recent (hence final) span that group matched. -/
abbrev Caps := List (Nat × Nat × Nat)

/-- Backtracking matcher.  `mtch t fuel r i caps` returns the end positions
(with capture lists) of every way `r` can match `t` starting at `i`,
ordered by CPython backtracking priority: the head is the match `re` would
pick.  Alternation tries the left branch first; greedy star tries longer
repetitions first and lazy star shorter first; a star iteration must
consume at least one character (every starred subexpression of the source
patterns is a single-character class, so this agrees with `re`).  `fuel`
only forces termination; callers pass enough for the search tree depth. -/
def mtch (t : List Char) : Nat → RE → Nat → Caps → List (Nat × Caps)
  | 0, _, _, _ => []
  | _ + 1, .eps, i, caps => [(i, caps)]
  | _ + 1, .cls p, i, caps =>
      match t.get? i with
      | some c => if p c then [(i + 1, caps)] else []
      | none => []
  | fuel + 1, .seq a b, i, caps =>
      (mtch t fuel a i caps).flatMap fun jc => mtch t fuel b jc.1 jc.2
  | fuel + 1, .alt a b, i, caps =>
      mtch t fuel a i caps ++ mtch t fuel b i caps
  | fuel + 1, .opt a, i, caps =>
      mtch t fuel a i caps ++ [(i, caps)]
  | fuel + 1, .grp n a, i, caps =>
      (mtch t fuel a i caps).map fun jc => (jc.1, (n, i, jc.1) :: jc.2)
  | fuel + 1, .star a lz, i, caps =>
      let rest := (mtch t fuel a i caps).flatMap fun jc =>
        if i < jc.1 then mtch t fuel (.star a lz) jc.1 jc.2 else []
      if lz then (i, caps) :: rest else rest ++ [(i, caps)]

/-- Size of a regular expression, used to budget matcher fuel. -/
def reSize : RE → Nat
  | .eps => 1
  | .cls _ => 1
  | .seq a b => reSize a + reSize b + 1
  | .alt a b => reSize a + reSize b + 1
  | .star a _ => reSize a + 1
  | .opt a => reSize a + 1
  | .grp _ a => reSize a + 1

/-- Fuel that strictly dominates the matcher's recursion depth on `t`:
every recursive call either descends one regex node or advances a star by
at least one character. -/
def mfuel (r : RE) (t : List Char) : Nat :=
  (reSize r + 2) * (t.length + 2)

/-- `re.finditer`: scan positions left to right; at the leftmost position
where the pattern matches, emit the backtracking-preferred match and resume
after its end (non-overlapping). -/
def finditer (t : List Char) (r : RE) : Nat → Nat → List (Nat × Nat × Caps)
  | 0, _ => []
  | fuel + 1, i =>
      if t.length < i then []
      else
        match mtch t (mfuel r t) r i [] with
        | (j, caps) :: _ => (i, j, caps) :: finditer t r fuel (max j (i + 1))
        | [] => finditer t r fuel (i + 1)

/-- The substring `t[s:e]` as a `String`. -/
def sliceS (t : List Char) (s e : Nat) : String :=
  ⟨(t.drop s).take (e - s)⟩

/-! ## Building blocks mirroring the regex source text -/

/-- A single literal character under `re.IGNORECASE`. -/
def chci (c : Char) : RE := .cls fun x => pyLowerC x = pyLowerC c

/-- A literal word under `re.IGNORECASE`. -/
def litci (s : String) : RE := s.data.foldr (fun c r => .seq (chci c) r) .eps

def seqs (l : List RE) : RE := l.foldr .seq .eps

def altN : List RE → RE
  | [] => .eps
  | [r] => r
  | r :: rs => .alt r (altN rs)

/-- `p+` for a single-character class. -/
def plusC (p : Char → Bool) : RE := .seq (.cls p) (.star (.cls p) false)

/-- `\s+`. -/
def ws1 : RE := plusC isWS

/-- `\s*`. -/
def ws0 : RE := .star (.cls isWS) false

/-- `.` (no DOTALL: anything but newline). -/
def dotC : RE := .cls fun c => c ≠ '\n'

/-- The class `[A-ZÉÍÓÚÑ]` under `re.IGNORECASE` (note: no `Á`). -/
def clsMayEs (c : Char) : Bool :=
  isAsciiAlpha c || c = 'é' || c = 'í' || c = 'ó' || c = 'ú' || c = 'ñ' ||
  c = 'É' || c = 'Í' || c = 'Ó' || c = 'Ú' || c = 'Ñ'

/-- The class `[a-záéíóúñ]` under `re.IGNORECASE`. -/
def clsMinEs (c : Char) : Bool :=
  isAsciiAlpha c || c = 'á' || c = 'é' || c = 'í' || c = 'ó' || c = 'ú' ||
  c = 'ñ' || c = 'Á' || c = 'É' || c = 'Í' || c = 'Ó' || c = 'Ú' || c = 'Ñ'

/-- The class `[A-ZÉÍÓÚÑa-záéíóúñ\s,y]` under `re.IGNORECASE`. -/
def clsListaEs (c : Char) : Bool :=
  clsMinEs c || isWS c || c = ','

/-- The class `[A-Z\s,;:\.0-9]` under `re.IGNORECASE`. -/
def clsListaEn (c : Char) : Bool :=
  isAsciiAlpha c || isWS c || c = ',' || c = ';' || c = ':' || c = '.' ||
  isDig c

/-- `[A-Z][a-z]+` under `re.IGNORECASE`: an ASCII word of length ≥ 2. -/
def wordEn : RE := .seq (.cls isAsciiAlpha) (plusC isAsciiAlpha)

/-- `[A-ZÉÍÓÚÑ][a-záéíóúñ]+` under `re.IGNORECASE`. -/
def wordEs : RE := .seq (.cls clsMayEs) (plusC clsMinEs)

/-! ## The twelve patterns of `patrones_origen`, in source order -/

/-- `Product\s+of\s+([A-Z][a-z]+(?:\s+[A-Z][a-z]+)?)` -/
def pat0 : RE :=
  seqs [litci "Product", ws1, litci "of", ws1,
    .grp 1 (.seq wordEn (.opt (.seq ws1 wordEn)))]

/-- `Producto\s+de\s+([A-ZÉÍÓÚÑ][a-záéíóúñ]+(?:\s+[A-ZÉÍÓÚÑ][a-záéíóúñ]+)?)` -/
def pat1 : RE :=
  seqs [litci "Producto", ws1, litci "de", ws1,
    .grp 1 (.seq wordEs (.opt (.seq ws1 wordEs)))]

/-- `Origen:\s*([A-ZÉÍÓÚÑa-záéíóúñ\s,y]+)` -/
def pat2 : RE :=
  seqs [litci "Origen:", ws0, .grp 1 (plusC clsListaEs)]

/-- The ten country names enumerated by the code-table pattern. -/
def countryWords : List String :=
  ["ITALY", "SPAIN", "PORTUGAL", "GREECE", "MOROCCO", "TURKEY", "TUNISIA",
   "CHILE", "ARGENTINA", "FRANCE"]

/-- `([A-Z]+):\s+(ITALY|SPAIN|PORTUGAL|GREECE|MOROCCO|TURKEY|TUNISIA|CHILE|ARGENTINA|FRANCE)` -/
def pat3 : RE :=
  seqs [.grp 1 (plusC isAsciiAlpha), chci ':', ws1,
    .grp 2 (altN (countryWords.map litci))]

/-- `[Cc]ountries?\s+identified\s+in\s+the\s+date\s+code[:\s]+([A-Z\s,;:\.0-9]+)` -/
def pat4 : RE :=
  seqs [chci 'c', litci "ountrie", .opt (chci 's'), ws1, litci "identified",
    ws1, litci "in", ws1, litci "the", ws1, litci "date", ws1, litci "code",
    plusC (fun c => c = ':' || isWS c), .grp 1 (plusC clsListaEn)]

/-- `[Aa]ceite\s+(?:de\s+oliva\s+)?de\s+([A-ZÉÍÓÚÑ][a-záéíóúñ]+)` -/
def pat5 : RE :=
  seqs [chci 'a', litci "ceite", ws1,
    .opt (seqs [litci "de", ws1, litci "oliva", ws1]),
    litci "de", ws1, .grp 1 wordEs]

/-- `[Mm]ezcla\s+de\s+aceites?\s+de\s+(?:la\s+)?(?:Unión\s+Europea|UE|([A-ZÉÍÓÚÑa-záéíóúñ\s,y]+))` -/
def pat6 : RE :=
  seqs [chci 'm', litci "ezcla", ws1, litci "de", ws1, litci "aceite",
    .opt (chci 's'), ws1, litci "de", ws1, .opt (.seq (litci "la") ws1),
    altN [seqs [litci "Unión", ws1, litci "Europea"], litci "UE",
      .grp 1 (plusC clsListaEs)]]

/-- `[Aa]ceites?\s+de\s+(?:distintos\s+)?(?:orígenes?|países)\s*:?\s*([A-ZÉÍÓÚÑa-záéíóúñ\s,y]+)?` -/
def pat7 : RE :=
  seqs [chci 'a', litci "ceite", .opt (chci 's'), ws1, litci "de", ws1,
    .opt (.seq (litci "distintos") ws1),
    altN [.seq (litci "orígene") (.opt (chci 's')), litci "países"],
    ws0, .opt (chci ':'), ws0, .opt (.grp 1 (plusC clsListaEs))]

/-- `(?:Made\s+in|Elaborado\s+en|Envasado\s+en|Product\s+of)\s+([A-ZÉÍÓÚÑ][a-záéíóúñ]+)` -/
def pat8 : RE :=
  seqs [altN [seqs [litci "Made", ws1, litci "in"],
      seqs [litci "Elaborado", ws1, litci "en"],
      seqs [litci "Envasado", ws1, litci "en"],
      seqs [litci "Product", ws1, litci "of"]],
    ws1, .grp 1 wordEs]

/-- The demonym alternatives of the tenth pattern, in source order. -/
def adjWords : List String :=
  ["español", "española", "italiano", "italiana", "griego", "griega",
   "tunecino", "marroquí", "portugués", "portuguesa"]

/-- `[Aa]ceite\s+.*?\s+(español|española|italiano|italiana|griego|griega|tunecino|marroquí|portugués|portuguesa)` -/
def pat9 : RE :=
  seqs [chci 'a', litci "ceite", ws1, .star dotC true, ws1,
    .grp 1 (altN (adjWords.map litci))]

/-- `(UE|Unión\s+Europea|No\s+UE|Fuera\s+de\s+la\s+UE|EU\s+Agriculture)` -/
def pat10 : RE :=
  .grp 1 (altN [litci "UE",
    seqs [litci "Unión", ws1, litci "Europea"],
    seqs [litci "No", ws1, litci "UE"],
    seqs [litci "Fuera", ws1, litci "de", ws1, litci "la", ws1, litci "UE"],
    seqs [litci "EU", ws1, litci "Agriculture"]])

/-- `Distributed\s+by.*?(?:in|from)\s+([A-Z][a-z]+)` -/
def pat11 : RE :=
  seqs [litci "Distributed", ws1, litci "by", .star dotC true,
    altN [litci "in", litci "from"], ws1, .grp 1 wordEn]

/-- `self.patrones_origen`, each with its number of capture groups. -/
def patrones_origen : List (RE × Nat) :=
  [(pat0, 1), (pat1, 1), (pat2, 1), (pat3, 2), (pat4, 1), (pat5, 1),
   (pat6, 1), (pat7, 1), (pat8, 1), (pat9, 1), (pat10, 1), (pat11, 1)]

/-! ## Normalization table and whitelist -/

/-- `self.normalizacion_paises`, in source order. -/
def normalizacion_paises : List (String × String) :=
  [("spain", "España"), ("españa", "España"), ("español", "España"),
   ("española", "España"),
   ("italy", "Italia"), ("italia", "Italia"), ("italiano", "Italia"),
   ("italiana", "Italia"),
   ("greece", "Grecia"), ("grecia", "Grecia"), ("griego", "Grecia"),
   ("griega", "Grecia"),
   ("tunisia", "Túnez"), ("túnez", "Túnez"), ("tunecino", "Túnez"),
   ("morocco", "Marruecos"), ("marruecos", "Marruecos"),
   ("marroquí", "Marruecos"),
   ("portugal", "Portugal"), ("portugués", "Portugal"),
   ("portuguesa", "Portugal"),
   ("turkey", "Turquía"), ("turquía", "Turquía"), ("turco", "Turquía"),
   ("chile", "Chile"), ("argentina", "Argentina"),
   ("france", "Francia"), ("francia", "Francia"),
   ("ue", "UE (Unión Europea)"), ("eu", "UE (Unión Europea)"),
   ("unión europea", "UE (Unión Europea)"),
   ("eu agriculture", "UE (Unión Europea)"),
   ("no ue", "No UE"), ("fuera de la ue", "No UE")]

/-- `paises_validos` (local to `detectar_origenes`), in source order. -/
def paises_validos : List String :=
  ["spain", "españa", "italy", "italia", "greece", "grecia", "portugal",
   "tunisia", "túnez", "morocco", "marruecos", "turkey", "turquía", "chile",
   "argentina", "usa", "eeuu", "france", "francia", "germany", "alemania"]

/-! ## Splitting, cleaning and the acceptance gate -/

/-- `re.split(r'[,;]|\sy\s|\sand\s', ...)` (case-sensitive, as in the
source): scan left to right; at each position a `,` or `;` is a separator,
otherwise whitespace-`y`-whitespace, otherwise whitespace-`and`-whitespace;
the accumulator holds the current token reversed. -/
def splitSepGo : Nat → List Char → List Char → List (List Char)
  | 0, acc, _ => [acc.reverse]
  | _ + 1, acc, [] => [acc.reverse]
  | fuel + 1, acc, c1 :: rest =>
    if c1 = ',' || c1 = ';' then acc.reverse :: splitSepGo fuel [] rest
    else
      match rest with
      | 'y' :: c3 :: rest3 =>
          if isWS c1 && isWS c3 then acc.reverse :: splitSepGo fuel [] rest3
          else splitSepGo fuel (c1 :: acc) ('y' :: c3 :: rest3)
      | 'a' :: 'n' :: 'd' :: c5 :: rest5 =>
          if isWS c1 && isWS c5 then acc.reverse :: splitSepGo fuel [] rest5
          else splitSepGo fuel (c1 :: acc) ('a' :: 'n' :: 'd' :: c5 :: rest5)
      | r => splitSepGo fuel (c1 :: acc) r

/-- The raw tokens of a selected capture group (line 222).  The fuel
`length + 1` dominates the scan, which consumes at least one character per
step. -/
def splitSepS (s : String) : List String :=
  (splitSepGo (s.data.length + 1) [] s.data).map fun l => ⟨l⟩

/-- Token cleaning (line 225): `re.sub(r'\d+', '', pais).strip().lower()`. -/
def limpiarPais (pais : String) : String :=
  ⟨pyLowerL (stripL (pais.data.filter fun c => !(isDig c)))⟩

/-- The per-token step of the general scan (lines 225–235): clean the
token, accept it only if the cleaned form is whitelisted or a key of the
normalization table, map it through the table (title-cased original as
fallback), and keep the label only if longer than 2 characters. -/
def procesarToken (pais : String) : Option String :=
  let pais_limpio := limpiarPais pais
  if paises_validos.contains pais_limpio ||
      (normalizacion_paises.lookup pais_limpio).isSome then
    let pais_normalizado :=
      (normalizacion_paises.lookup pais_limpio).getD (pyTitleS (stripS pais))
    if 2 < pais_normalizado.length then some pais_normalizado else none
  else none

/-- The groups `match.group(1) … match.group(n)` of a match, `none` for a
group that did not participate. -/
def gruposDe (t : List Char) (caps : Caps) (n : Nat) : List (Option String) :=
  (List.range n).map fun k => (caps.lookup (k + 1)).map fun se =>
    sliceS t se.1 se.2

/-- Capture-group selection (lines 212–218): the first group, in ascending
index order, that captured text which is non-empty after trimming. -/
def seleccionarGrupo : List (Option String) → Option String
  | [] => none
  | none :: rest => seleccionarGrupo rest
  | some g :: rest =>
      if stripS g ≠ "" then some g else seleccionarGrupo rest

/-! ## The code-table scan (lines 198–205) -/

/-- Length of the run of characters satisfying `p` at the head of a list. -/
def countRun (p : Char → Bool) : List Char → Nat
  | [] => 0
  | c :: cs => if p c then countRun p cs + 1 else 0

/-- The first enumerated country name matching case-insensitively at
position `k`: returns the matched slice of the text and its end. -/
def wordAt (t : List Char) (k : Nat) : Option (String × Nat) :=
  countryWords.findSome? fun w =>
    if pyLowerL ((t.drop k).take w.data.length) = pyLowerL w.data
    then some (sliceS t k (k + w.data.length), k + w.data.length) else none

/-- A match of `([A-Z]+):\s+(ITALY|…|FRANCE)` (with `re.IGNORECASE`)
starting at position `i`: a non-empty ASCII-letter run, a colon, at least
one whitespace character, then one of the ten country names.  The regex
behaves deterministically here because `:` is not a letter and the country
names do not start with whitespace, so no backtracking into the greedy
`+` quantifiers can succeed.  Returns `(code, country, end)`. -/
def matchCodigoAt (t : List Char) (i : Nat) : Option (String × String × Nat) :=
  let nl := countRun isAsciiAlpha (t.drop i)
  if nl = 0 then none
  else
    let j := i + nl
    if t.get? j = some ':' then
      let nw := countRun isWS (t.drop (j + 1))
      if nw = 0 then none
      else
        let k := j + 1 + nw
        match wordAt t k with
        | some we => some (sliceS t i j, we.1, we.2)
        | none => none
    else none

/-- `re.findall(patron_codigos, texto, re.IGNORECASE)`: left-to-right
non-overlapping scan returning the `(code, country)` group pairs. -/
def buscarCodigos (t : List Char) : Nat → Nat → List (String × String)
  | 0, _ => []
  | fuel + 1, i =>
    if t.length < i then []
    else
      match matchCodigoAt t i with
      | some cpe => (cpe.1, cpe.2.1) :: buscarCodigos t fuel (max cpe.2.2 (i + 1))
      | none => buscarCodigos t fuel (i + 1)

/-! ## `detectar_origenes` (lines 178–237) -/

/-- The label produced for a `(code, country)` pair of the code-table scan
(line 204): strip and lowercase the country, normalize through the table
with title-cased fallback. -/
def etiquetaCodigo (cp : String × String) : String :=
  (normalizacion_paises.lookup (pyLowerS (stripS cp.2))).getD
    (pyTitleS (stripS cp.2))

/-- One step of the code-table fold (lines 201–205): gate the cleaned
country on the whitelist or the table, then add its label (no length
filter here). -/
def pasoCodigo (acc : Finset String) (cp : String × String) : Finset String :=
  if paises_validos.contains (pyLowerS (stripS cp.2)) ||
      (normalizacion_paises.lookup (pyLowerS (stripS cp.2))).isSome then
    insert (etiquetaCodigo cp) acc
  else acc

/-- One raw-token step of the general scan (lines 223–235). -/
def pasoToken (acc : Finset String) (pais : String) : Finset String :=
  match procesarToken pais with
  | some pais_normalizado => insert pais_normalizado acc
  | none => acc

/-- One match step of the general scan (lines 210–235): select the capture
group, split it into raw tokens, process each token. -/
def pasoMatch (t : List Char) (n : Nat) (acc : Finset String)
    (m : Nat × Nat × Caps) : Finset String :=
  match seleccionarGrupo (gruposDe t m.2.2 n) with
  | none => acc
  | some grupo => (splitSepS grupo).foldl pasoToken acc

/-- `detectar_origenes`: first the code-table scan (each found country is
stripped, lowercased, gated by the whitelist/table and normalized, with no
length filter), then the general scan over `patrones_origen` (select a
capture group, split it, clean and gate each token, normalize, keep labels
longer than 2 characters).  The result is the accumulated set. -/
def detectar_origenes (texto : String) : Finset String :=
  let t := texto.data
  patrones_origen.foldl (fun acc pr =>
    (finditer t pr.1 (t.length + 2) 0).foldl (pasoMatch t pr.2) acc)
    ((buscarCodigos t (t.length + 1) 0).foldl pasoCodigo ∅)

/-! ## `extraer_codigo_archivo` (lines 239–253) -/

/-- `re.search(r'(4\d{5})', nombre)` succeeds at position `i` iff the
character there is `4` and the next five characters are digits. -/
def codigoAt (t : List Char) (i : Nat) : Bool :=
  match t.drop i with
  | '4' :: rest => (rest.take 5).length == 5 && (rest.take 5).all isDig
  | _ => false

/-- Position of the leftmost occurrence of `4\d{5}` at or after `i`. -/
def buscarCodigoDesde (t : List Char) : Nat → Nat → Option Nat
  | 0, _ => none
  | fuel + 1, i =>
    if t.length < i then none
    else if codigoAt t i then some i
    else buscarCodigoDesde t fuel (i + 1)

/-- `extraer_codigo_archivo`: the first six-digit substring starting with
`4` anywhere in the filename, or the whole filename if there is none. -/
def extraer_codigo_archivo (nombre : String) : String :=
  match buscarCodigoDesde nombre.data (nombre.data.length + 1) 0 with
  | some i => sliceS nombre.data i (i + 6)
  | none => nombre

/-! ## General lemmas about the folds used by `detectar_origenes` -/

/-- Elements of a fold are either in the initial set or were produced by
some step. -/
lemma mem_foldl_or {α : Type} (P : String → Prop)
    (step : Finset String → α → Finset String)
    (hstep : ∀ acc a x, x ∈ step acc a → x ∈ acc ∨ P x) :
    ∀ (l : List α) (init : Finset String) (x : String),
      x ∈ l.foldl step init → x ∈ init ∨ P x := by
  intro l
  induction l with
  | nil => intro init x hx; exact Or.inl hx
  | cons a l ih =>
      intro init x hx
      rcases ih (step init a) x hx with h | h
      · exact hstep init a x h
      · exact Or.inr h

/-- A fold whose steps never remove elements contains its initial set. -/
lemma subset_foldl_acc {α : Type}
    (step : Finset String → α → Finset String)
    (hmono : ∀ acc a, acc ⊆ step acc a) :
    ∀ (l : List α) (init : Finset String), init ⊆ l.foldl step init := by
  intro l
  induction l with
  | nil => intro init; exact Finset.Subset.refl init
  | cons a l ih =>
      intro init
      exact Finset.Subset.trans (hmono init a) (ih (step init a))

/-- A fold whose steps never remove elements and whose step inserts
`f a` whenever `Q a` holds contains `f a` for every listed `a` with `Q a`. -/
lemma foldl_adds {α : Type}
    (step : Finset String → α → Finset String)
    (hmono : ∀ acc a, acc ⊆ step acc a)
    (f : α → String) (Q : α → Prop)
    (hins : ∀ acc a, Q a → f a ∈ step acc a) :
    ∀ (l : List α) (init : Finset String) (a : α),
      a ∈ l → Q a → f a ∈ l.foldl step init := by
  intro l
  induction l with
  | nil => intro init a ha; exact absurd ha (List.not_mem_nil a)
  | cons b l ih =>
      intro init a ha hq
      rw [List.foldl_cons]
      rcases List.mem_cons.mp ha with h | h
      · subst h
        exact subset_foldl_acc step hmono l (step init a) (hins init a hq)
      · exact ih (step init b) a h hq

/-- Values of an association list all satisfying a property, transported
through `List.lookup`. -/
lemma lookup_value_prop {P : String → Prop} :
    ∀ (l : List (String × String)), (∀ p ∈ l, P p.2) →
      ∀ s v, l.lookup s = some v → P v := by
  intro l
  induction l with
  | nil => intro _ s v hv; simp [List.lookup] at hv
  | cons p rest ih =>
      intro h s v hv
      rw [List.lookup] at hv
      by_cases hk : (s == p.1) = true
      · simp only [hk] at hv
        exact Option.some.inj hv ▸ h p (List.mem_cons_self p rest)
      · have hk' : (s == p.1) = false := by simpa using hk
        simp only [hk'] at hv
        exact ih (fun q hq => h q (List.mem_cons_of_mem p hq)) s v hv

lemma pyTitleGo_length : ∀ (b : Bool) (l : List Char),
    (pyTitleGo b l).length = l.length := by
  intro b l
  induction l generalizing b with
  | nil => rfl
  | cons c cs ih =>
      rw [pyTitleGo, List.length_cons, List.length_cons, ih]

lemma pyTitleS_length (s : String) : (pyTitleS s).length = s.length :=
  pyTitleGo_length false s.data

lemma pyLowerS_length (s : String) : (pyLowerS s).length = s.length :=
  List.length_map s.data pyLowerC

/-- Every value of the normalization table is longer than 2 characters. -/
lemma norm_values_long : ∀ p ∈ normalizacion_paises, 2 < p.2.length := by
  decide

/-- Every whitelisted country name is longer than 2 characters. -/
lemma validos_long : ∀ x ∈ paises_validos, 2 < x.length := by
  decide

/-! ## Lemmas about `extraer_codigo_archivo` -/

lemma codigoAt_false_of_le (t : List Char) (i : Nat) (h : t.length ≤ i) :
    codigoAt t i = false := by
  unfold codigoAt
  rw [List.drop_eq_nil_of_le h]

lemma codigoAt_lt_length (t : List Char) (i : Nat)
    (h : codigoAt t i = true) : i < t.length := by
  by_contra h'
  have hf := codigoAt_false_of_le t i (Nat.le_of_not_lt h')
  simp [hf] at h

lemma buscarCodigoDesde_none (t : List Char) :
    ∀ (fuel i : Nat), buscarCodigoDesde t fuel i = none →
      ∀ j, i ≤ j → j < i + fuel → codigoAt t j = false := by
  intro fuel
  induction fuel with
  | zero => intro i _ j hij hj; omega
  | succ fuel ih =>
      intro i h j hij hj
      rw [buscarCodigoDesde] at h
      by_cases hlen : t.length < i
      · exact codigoAt_false_of_le t j (by omega)
      · rw [if_neg hlen] at h
        by_cases hc : codigoAt t i = true
        · rw [if_pos hc] at h; exact absurd h (by simp)
        · rw [if_neg hc] at h
          rcases Nat.eq_or_lt_of_le hij with rfl | hlt
          · exact Bool.eq_false_iff.mpr hc
          · exact ih (i + 1) h j hlt (by omega)

lemma buscarCodigoDesde_some (t : List Char) :
    ∀ (fuel i j : Nat), buscarCodigoDesde t fuel i = some j →
      i ≤ j ∧ codigoAt t j = true ∧
        ∀ k, i ≤ k → k < j → codigoAt t k = false := by
  intro fuel
  induction fuel with
  | zero => intro i j h; exact absurd h (by simp [buscarCodigoDesde])
  | succ fuel ih =>
      intro i j h
      rw [buscarCodigoDesde] at h
      by_cases hlen : t.length < i
      · rw [if_pos hlen] at h; exact absurd h (by simp)
      · rw [if_neg hlen] at h
        by_cases hc : codigoAt t i = true
        · rw [if_pos hc] at h
          obtain rfl : i = j := Option.some.inj h
          exact ⟨Nat.le_refl i, hc, fun k hk hkj => by omega⟩
        · rw [if_neg hc] at h
          obtain ⟨h1, h2, h3⟩ := ih (i + 1) j h
          refine ⟨by omega, h2, ?_⟩
          intro k hk hkj
          rcases Nat.eq_or_lt_of_le hk with rfl | hlt
          · exact Bool.eq_false_iff.mpr hc
          · exact h3 k hlt hkj

/-- The token step only returns labels longer than 2 characters. -/
lemma procesarToken_length (pais norm : String)
    (h : procesarToken pais = some norm) : 2 < norm.length := by
  unfold procesarToken at h
  by_cases hg : paises_validos.contains (limpiarPais pais) ||
      (normalizacion_paises.lookup (limpiarPais pais)).isSome
  · rw [if_pos hg] at h
    by_cases hl : 2 <
        ((normalizacion_paises.lookup (limpiarPais pais)).getD
          (pyTitleS (stripS pais))).length
    · rw [if_pos hl] at h
      exact Option.some.inj h ▸ hl
    · rw [if_neg hl] at h
      exact absurd h (Option.noConfusion)
  · rw [if_neg hg] at h
    exact absurd h (Option.noConfusion)

/-! ## Lemmas about the step functions of `detectar_origenes` -/

lemma pasoToken_subset (acc : Finset String) (pais : String) :
    acc ⊆ pasoToken acc pais := by
  unfold pasoToken
  split
  · exact Finset.subset_insert _ _
  · exact Finset.Subset.refl _

lemma pasoToken_mem (acc : Finset String) (pais x : String)
    (h : x ∈ pasoToken acc pais) : x ∈ acc ∨ 2 < x.length := by
  unfold pasoToken at h
  split at h
  · rename_i n hp
    rcases Finset.mem_insert.mp h with rfl | hx
    · exact Or.inr (procesarToken_length pais x hp)
    · exact Or.inl hx
  · exact Or.inl h

lemma pasoMatch_subset (t : List Char) (n : Nat) (acc : Finset String)
    (m : Nat × Nat × Caps) : acc ⊆ pasoMatch t n acc m := by
  unfold pasoMatch
  split
  · exact Finset.Subset.refl _
  · exact subset_foldl_acc pasoToken pasoToken_subset _ acc

lemma pasoMatch_mem (t : List Char) (n : Nat) (acc : Finset String)
    (m : Nat × Nat × Caps) (x : String)
    (h : x ∈ pasoMatch t n acc m) : x ∈ acc ∨ 2 < x.length := by
  unfold pasoMatch at h
  split at h
  · exact Or.inl h
  · exact mem_foldl_or (fun y => 2 < y.length) pasoToken pasoToken_mem
      _ acc x h

lemma pasoCodigo_subset (acc : Finset String) (cp : String × String) :
    acc ⊆ pasoCodigo acc cp := by
  unfold pasoCodigo
  split
  · exact Finset.subset_insert _ _
  · exact Finset.Subset.refl _

lemma pasoCodigo_mem (acc : Finset String) (cp : String × String)
    (x : String) (h : x ∈ pasoCodigo acc cp) : x ∈ acc ∨ 2 < x.length := by
  unfold pasoCodigo at h
  split at h
  · rename_i hg
    rcases Finset.mem_insert.mp h with rfl | hx
    · right
      unfold etiquetaCodigo
      cases hlk : normalizacion_paises.lookup (pyLowerS (stripS cp.2)) with
      | some v =>
          simpa using lookup_value_prop (P := fun w => 2 < w.length)
            normalizacion_paises norm_values_long
            (pyLowerS (stripS cp.2)) v hlk
      | none =>
          have hcont : paises_validos.contains (pyLowerS (stripS cp.2)) =
              true := by
            rcases Bool.or_eq_true_iff.mp hg with h' | h'
            · exact h'
            · rw [hlk] at h'; exact absurd h' (by simp)
          have hmem : pyLowerS (stripS cp.2) ∈ paises_validos := by
            simpa using hcont
          have hlen := validos_long _ hmem
          rw [pyLowerS_length] at hlen
          simpa [pyTitleS_length] using hlen
    · exact Or.inl hx
  · exact Or.inl h

/-- If the gate passes for a code-scan pair, its label lands in the fold's
result. -/
lemma pasoCodigo_adds (acc : Finset String) (cp : String × String)
    (hg : (paises_validos.contains (pyLowerS (stripS cp.2)) ||
      (normalizacion_paises.lookup (pyLowerS (stripS cp.2))).isSome) = true) :
    etiquetaCodigo cp ∈ pasoCodigo acc cp := by
  unfold pasoCodigo
  rw [if_pos hg]
  exact Finset.mem_insert_self _ _

/-! ## Soundness of the code-table scanner -/

lemma isWS_pyLowerC (c : Char) (h : isWS c = true) : pyLowerC c = c := by
  simp only [isWS, Bool.or_eq_true, decide_eq_true_eq] at h
  rcases h with ((((rfl | rfl) | rfl) | rfl) | rfl) | rfl <;> rfl

lemma dropWhile_eq_self_of (p : Char → Bool) (l : List Char)
    (h : ∀ c ∈ l, p c = false) : l.dropWhile p = l := by
  cases l with
  | nil => rfl
  | cons c cs =>
      rw [List.dropWhile_cons, if_neg]
      simp [h c (List.mem_cons_self c cs)]

lemma stripL_eq_of_no_ws (l : List Char)
    (h : ∀ c ∈ l, isWS c = false) : stripL l = l := by
  unfold stripL
  rw [dropWhile_eq_self_of isWS l h,
    dropWhile_eq_self_of isWS l.reverse
      (fun c hc => h c (List.mem_reverse.mp hc)),
    List.reverse_reverse]

lemma no_ws_of_pyLower (s w : String) (hw : pyLowerS s = w)
    (hnf : ∀ c ∈ w.data, isWS c = false) :
    ∀ c ∈ s.data, isWS c = false := by
  intro c hc
  by_contra hws
  have hws' : isWS c = true := by simpa using hws
  have hmem : pyLowerC c ∈ (pyLowerS s).data :=
    List.mem_map_of_mem pyLowerC hc
  rw [hw] at hmem
  have hf := hnf _ hmem
  rw [isWS_pyLowerC c hws'] at hf
  rw [hf] at hws'
  exact absurd hws' (by simp)

/-- A successful `wordAt` captures text that lowercases to one of the ten
enumerated country names. -/
lemma wordAt_sound (t : List Char) (k : Nat) (we : String × Nat)
    (h : wordAt t k = some we) :
    ∃ w ∈ countryWords, pyLowerS we.1 = pyLowerS w := by
  unfold wordAt at h
  obtain ⟨w, hwmem, hw⟩ := List.exists_of_findSome?_eq_some h
  refine ⟨w, hwmem, ?_⟩
  by_cases hc : pyLowerL ((t.drop k).take w.data.length) = pyLowerL w.data
  · rw [if_pos hc] at hw
    obtain rfl : (sliceS t k (k + w.data.length), k + w.data.length) = we :=
      Option.some.inj hw
    show pyLowerS (sliceS t k (k + w.data.length)) = pyLowerS w
    unfold pyLowerS sliceS pyLowerL
    rw [Nat.add_sub_cancel_left]
    exact congrArg _ hc
  · rw [if_neg hc] at hw
    exact absurd hw (by simp)

lemma matchCodigoAt_sound (t : List Char) (i : Nat)
    (cpe : String × String × Nat) (h : matchCodigoAt t i = some cpe) :
    ∃ w ∈ countryWords, pyLowerS cpe.2.1 = pyLowerS w := by
  simp only [matchCodigoAt] at h
  split at h
  · exact absurd h (by simp)
  · split at h
    · split at h
      · exact absurd h (by simp)
      · split at h
        · rename_i we hwe
          obtain rfl : (_, we.1, we.2) = cpe := Option.some.inj h
          exact wordAt_sound t _ we hwe
        · exact absurd h (by simp)
    · exact absurd h (by simp)

lemma buscarCodigos_sound (t : List Char) :
    ∀ (fuel i : Nat) (cp : String × String), cp ∈ buscarCodigos t fuel i →
      ∃ w ∈ countryWords, pyLowerS cp.2 = pyLowerS w := by
  intro fuel
  induction fuel with
  | zero => intro i cp h; exact absurd h (by simp [buscarCodigos])
  | succ fuel ih =>
      intro i cp h
      rw [buscarCodigos] at h
      by_cases hlen : t.length < i
      · rw [if_pos hlen] at h; exact absurd h (List.not_mem_nil cp)
      · rw [if_neg hlen] at h
        split at h
        · rename_i cpe hm
          rcases List.mem_cons.mp h with rfl | h'
          · simpa using matchCodigoAt_sound t i cpe hm
          · exact ih _ cp h'
        · exact ih _ cp h

/-- Every country found by the code-table scan passes the acceptance gate:
its cleaned form is a key of the normalization table. -/
lemma buscarCodigos_gate (t : List Char) (fuel i : Nat)
    (cp : String × String) (h : cp ∈ buscarCodigos t fuel i) :
    (normalizacion_paises.lookup (pyLowerS (stripS cp.2))).isSome = true := by
  obtain ⟨w, hwmem, hlow⟩ := buscarCodigos_sound t fuel i cp h
  have hn : ∀ c ∈ (pyLowerS w).data, isWS c = false := by
    fin_cases hwmem <;> decide
  have hnos : ∀ c ∈ cp.2.data, isWS c = false :=
    no_ws_of_pyLower cp.2 (pyLowerS w) hlow hn
  have hstrip : stripS cp.2 = cp.2 := by
    unfold stripS
    rw [stripL_eq_of_no_ws cp.2.data hnos]
  rw [hstrip, hlow]
  fin_cases hwmem <;> decide

/-! ## Claim theorems -/

/-- C3: in the general scan, a raw token contributes a label only if its
cleaned form (digits removed, trimmed, lowercased) is a member of the
whitelist `paises_validos` or a key of `normalizacion_paises`; a token
whose cleaned form is in neither contributes nothing. -/
theorem C3_acceptance_gate :
    (∀ pais norm, procesarToken pais = some norm →
      (paises_validos.contains (limpiarPais pais) ||
        (normalizacion_paises.lookup (limpiarPais pais)).isSome) = true) ∧
    (∀ pais, (paises_validos.contains (limpiarPais pais) ||
        (normalizacion_paises.lookup (limpiarPais pais)).isSome) = false →
      procesarToken pais = none) := by
  have hnone : ∀ pais, (paises_validos.contains (limpiarPais pais) ||
      (normalizacion_paises.lookup (limpiarPais pais)).isSome) = false →
      procesarToken pais = none := by
    intro pais hg
    simp only [procesarToken]
    rw [hg]
    rfl
  constructor
  · intro pais norm h
    cases hg : (paises_validos.contains (limpiarPais pais) ||
        (normalizacion_paises.lookup (limpiarPais pais)).isSome) with
    | true => rfl
    | false => rw [hnone pais hg] at h; exact absurd h (by simp)
  · exact hnone

/-- Witness for C3: `"España123"` cleans to the table key `"españa"` and is
accepted; `"Aceitunas"` cleans to a form in neither table and yields
nothing. -/
theorem C3_acceptance_gate_witness :
    (paises_validos.contains (limpiarPais "España123") ||
      (normalizacion_paises.lookup (limpiarPais "España123")).isSome) = true ∧
    procesarToken "Aceitunas" = none :=
  ⟨C3_acceptance_gate.1 "España123" "España" rfl,
   C3_acceptance_gate.2 "Aceitunas" (by decide)⟩

/-- C5: the candidate substring selected from a match's groups is the
captured text of the lowest-index group that is non-empty after
whitespace-trim; if every captured group trims to empty, the match
contributes nothing. -/
theorem C5_primer_grupo_no_vacio :
    (∀ (gs : List (Option String)) (c : String),
      seleccionarGrupo gs = some c →
      ∃ i : Nat, gs[i]? = some (some c) ∧ stripS c ≠ "" ∧
        ∀ j : Nat, j < i → ∀ g, gs[j]? = some g →
          ∀ c', g = some c' → stripS c' = "") ∧
    (∀ gs : List (Option String),
      (∀ (i : Nat) (c : String), gs[i]? = some (some c) → stripS c = "") →
      seleccionarGrupo gs = none) := by
  constructor
  · intro gs
    induction gs with
    | nil => intro c h; simp [seleccionarGrupo] at h
    | cons g? rest ih =>
        intro c h
        cases g? with
        | none =>
            rw [seleccionarGrupo] at h
            obtain ⟨i, h1, h2, h3⟩ := ih c h
            refine ⟨i + 1, by simpa using h1, h2, ?_⟩
            intro j hj g hg c' hc'
            cases j with
            | zero =>
                obtain rfl : (none : Option String) = g := by simpa using hg
                exact absurd hc' (by simp)
            | succ j' =>
                exact h3 j' (by omega) g (by simpa using hg) c' hc'
        | some g0 =>
            rw [seleccionarGrupo] at h
            by_cases hs : stripS g0 = ""
            · rw [if_neg (by simpa using hs)] at h
              obtain ⟨i, h1, h2, h3⟩ := ih c h
              refine ⟨i + 1, by simpa using h1, h2, ?_⟩
              intro j hj g hg c' hc'
              cases j with
              | zero =>
                  obtain rfl : some g0 = g := by simpa using hg
                  obtain rfl : g0 = c' := by simpa using hc'
                  exact hs
              | succ j' =>
                  exact h3 j' (by omega) g (by simpa using hg) c' hc'
            · rw [if_pos (by simpa using hs)] at h
              obtain rfl : g0 = c := by simpa using h
              exact ⟨0, by simp, hs, fun j hj => by omega⟩
  · intro gs
    induction gs with
    | nil => intro _; rfl
    | cons g? rest ih =>
        intro hall
        have hrest : seleccionarGrupo rest = none :=
          ih fun i c hi => hall (i + 1) c (by simpa using hi)
        cases g? with
        | none => rw [seleccionarGrupo]; exact hrest
        | some g0 =>
            have hs : stripS g0 = "" := hall 0 g0 (by simp)
            rw [seleccionarGrupo, if_neg (by simpa using hs)]
            exact hrest

/-- Witness for C5: in `[some "  ", none, some "España", some "x"]` the
group selected is `"España"` (index 2): the first group trims to empty and
the second did not capture. -/
theorem C5_primer_grupo_no_vacio_witness :
    ∃ i : Nat, ([some "  ", none, some "España", some "x"] :
        List (Option String))[i]? = some (some "España") ∧
      stripS "España" ≠ "" ∧
      ∀ j : Nat, j < i → ∀ g, ([some "  ", none, some "España", some "x"] :
          List (Option String))[j]? = some g →
        ∀ c', g = some c' → stripS c' = "" :=
  C5_primer_grupo_no_vacio.1 [some "  ", none, some "España", some "x"]
    "España" rfl

/-- Counterexample to C1: on `"UE Agriculture / Non-EU Agriculture"` the
label `"No UE"` is not in the result — the substring `"Non-EU Agriculture"`
matches the `EU\s+Agriculture` alternative of the UE pattern (there is no
`Non-EU` alternative or table entry), so only `"UE (Unión Europea)"` is
produced. -/
theorem C1_contraejemplo :
    "No UE" ∉ detectar_origenes "UE Agriculture / Non-EU Agriculture" := by
  intro hx
  have h : detectar_origenes "UE Agriculture / Non-EU Agriculture" =
      {"UE (Unión Europea)"} := Finset.val_inj.mp rfl
  rw [h] at hx
  exact absurd (Finset.mem_singleton.mp hx) (by decide)

/-- C1 as amended: for `"UE Agriculture / Non-EU Agriculture"` the result
is exactly `{"UE (Unión Europea)"}`; the `"No UE"` label is not produced
because `"Non-EU"` matches no pattern alternative and no table key. -/
theorem C1_amended :
    detectar_origenes "UE Agriculture / Non-EU Agriculture" =
      {"UE (Unión Europea)"} :=
  Finset.val_inj.mp rfl

/-- Counterexample to C2: on `"Producto de España y Portugal"` the label
`"Portugal"` is missing — the `Producto de` pattern captures at most two
capitalized words and stops before `" y Portugal"`, and no other pattern
matches that text. -/
theorem C2_contraejemplo :
    "Portugal" ∉ detectar_origenes "Producto de España y Portugal" := by
  intro hx
  have h : detectar_origenes "Producto de España y Portugal" =
      {"España"} := Finset.val_inj.mp rfl
  rw [h] at hx
  exact absurd (Finset.mem_singleton.mp hx) (by decide)

/-- C2 as amended: `detect "Producto de España y Portugal"` returns exactly
`{"España"}`. -/
theorem C2_amended :
    detectar_origenes "Producto de España y Portugal" = {"España"} :=
  Finset.val_inj.mp rfl

/-- C6: candidate substrings are split on commas, semicolons and the
lowercase connectives `" y "` / `" and "`, so
`detect "Origen: Italia, Grecia y España"` is `{"Italia","Grecia","España"}`. -/
theorem C6_separadores :
    detectar_origenes "Origen: Italia, Grecia y España" =
      {"Italia", "Grecia", "España"} ∧
    splitSepS "Italia, Grecia y España" = ["Italia", " Grecia", "España"] ∧
    splitSepS "Italy and Spain; France" = ["Italy", "Spain", " France"] := by
  refine ⟨?_, rfl, rfl⟩
  have h : detectar_origenes "Origen: Italia, Grecia y España" =
      ({"España", "Grecia", "Italia"} : Finset String) := Finset.val_inj.mp rfl
  rw [h]
  ext x
  simp only [Finset.mem_insert, Finset.mem_singleton]
  tauto

/-- Counterexample to C10: `"Fuera de la UE"` contains the letter sequence
`"ue"` (inside `"Fuera"`), yet the result does not contain
`"UE (Unión Europea)"` — the whole text is consumed by the longer
`Fuera\s+de\s+la\s+UE` alternative, which normalizes to `"No UE"`. -/
theorem C10_contraejemplo :
    "ue".data <:+: pyLowerL "Fuera de la UE".data ∧
    "UE (Unión Europea)" ∉ detectar_origenes "Fuera de la UE" := by
  constructor
  · exact ⟨"f".data, "ra de la ue".data, by decide⟩
  · intro hx
    have h : detectar_origenes "Fuera de la UE" = {"No UE"} :=
      Finset.val_inj.mp rfl
    rw [h] at hx
    exact absurd (Finset.mem_singleton.mp hx) (by decide)

/-- C10 as amended: an occurrence of `"ue"` inside an ordinary word does
produce the label (the UE pattern has no word-boundary anchors and is
case-insensitive): both `"que"` and `"Bueno"` yield
`"UE (Unión Europea)"`.  Not every text containing `"ue"` does: an
occurrence lying inside a match of a longer alternative of the same
pattern produces that alternative's label instead. -/
theorem C10_amended :
    "UE (Unión Europea)" ∈ detectar_origenes "que" ∧
    "UE (Unión Europea)" ∈ detectar_origenes "Bueno" := by
  constructor
  · have h : detectar_origenes "que" = {"UE (Unión Europea)"} :=
      Finset.val_inj.mp rfl
    rw [h]
    exact Finset.mem_singleton_self _
  · have h : detectar_origenes "Bueno" = {"UE (Unión Europea)"} :=
      Finset.val_inj.mp rfl
    rw [h]
    exact Finset.mem_singleton_self _

/-- Counterexample to C4: the code-table scan is a non-overlapping
left-to-right scan, so it does not match *every* occurrence of the shape
`CODE: COUNTRYNAME`.  In `"I: FRANCE: SPAIN"` the shape occurs at
position 3 (`FRANCE: SPAIN`, country `SPAIN`), but that occurrence overlaps
the earlier match `I: FRANCE`, so `"España"` is absent from the result. -/
theorem C4_contraejemplo :
    matchCodigoAt "I: FRANCE: SPAIN".data 3 = some ("FRANCE", "SPAIN", 16) ∧
    "España" ∉ detectar_origenes "I: FRANCE: SPAIN" := by
  refine ⟨rfl, fun hx => ?_⟩
  have h : detectar_origenes "I: FRANCE: SPAIN" = {"Francia"} :=
    Finset.val_inj.mp rfl
  rw [h] at hx
  exact absurd (Finset.mem_singleton.mp hx) (by decide)

/-- C4 as amended: every `(code, country)` pair the non-overlapping scan
does find has its normalized label added to the result (the ten enumerated
names are all normalization-table keys, so the gate always passes), and
`detect "I: ITALY, S: SPAIN" = {"Italia", "España"}`. -/
theorem C4_amended :
    detectar_origenes "I: ITALY, S: SPAIN" = {"Italia", "España"} ∧
    ∀ (texto : String) (cp : String × String),
      cp ∈ buscarCodigos texto.data (texto.data.length + 1) 0 →
      etiquetaCodigo cp ∈ detectar_origenes texto := by
  constructor
  · have h : detectar_origenes "I: ITALY, S: SPAIN" =
        ({"España", "Italia"} : Finset String) := Finset.val_inj.mp rfl
    rw [h]
    ext x
    simp only [Finset.mem_insert, Finset.mem_singleton]
    tauto
  · intro texto cp hcp
    have hg : (paises_validos.contains (pyLowerS (stripS cp.2)) ||
        (normalizacion_paises.lookup (pyLowerS (stripS cp.2))).isSome) =
        true := by
      rw [buscarCodigos_gate texto.data _ 0 cp hcp, Bool.or_true]
    have hbase : etiquetaCodigo cp ∈
        (buscarCodigos texto.data (texto.data.length + 1) 0).foldl
          pasoCodigo ∅ :=
      foldl_adds pasoCodigo pasoCodigo_subset etiquetaCodigo
        (fun cp' => (paises_validos.contains (pyLowerS (stripS cp'.2)) ||
          (normalizacion_paises.lookup (pyLowerS (stripS cp'.2))).isSome) =
          true)
        pasoCodigo_adds _ ∅ cp hcp hg
    simp only [detectar_origenes]
    exact subset_foldl_acc _
      (fun acc pr => subset_foldl_acc (pasoMatch texto.data pr.2)
        (pasoMatch_subset texto.data pr.2) _ acc)
      patrones_origen _ hbase

/-- Witness for C4: the pair `("I", "ITALY")` is found by the scan on
`"I: ITALY, S: SPAIN"` and its label is in the result. -/
theorem C4_amended_witness :
    ("I", "ITALY") ∈ buscarCodigos "I: ITALY, S: SPAIN".data
      ("I: ITALY, S: SPAIN".data.length + 1) 0 ∧
    etiquetaCodigo ("I", "ITALY") ∈
      detectar_origenes "I: ITALY, S: SPAIN" :=
  ⟨by decide, C4_amended.2 "I: ITALY, S: SPAIN" ("I", "ITALY") (by decide)⟩

/-- C7: every label in a detection result is longer than 2 characters —
including labels added by the code-table scan, which has no explicit
length check (its labels are normalization-table values or title-cased
whitelisted names, all longer than 2 characters). -/
theorem C7_longitud (texto : String) (l : String)
    (hl : l ∈ detectar_origenes texto) : 2 < l.length := by
  simp only [detectar_origenes] at hl
  rcases mem_foldl_or (fun x => 2 < x.length)
      (fun acc pr =>
        (finditer texto.data pr.1 (texto.data.length + 2) 0).foldl
          (pasoMatch texto.data pr.2) acc)
      (fun acc pr x hx => mem_foldl_or (fun y => 2 < y.length)
        (pasoMatch texto.data pr.2) (pasoMatch_mem texto.data pr.2)
        _ acc x hx)
      patrones_origen _ l hl with h | h
  · rcases mem_foldl_or (fun x => 2 < x.length) pasoCodigo pasoCodigo_mem
        _ _ l h with h0 | h0
    · exact absurd h0 (Finset.not_mem_empty l)
    · exact h0
  · exact h

/-- Witness for C7: the label detected in `"que"` is longer than 2. -/
theorem C7_longitud_witness : 2 < ("UE (Unión Europea)" : String).length :=
  C7_longitud "que" "UE (Unión Europea)" (by
    rw [(Finset.val_inj.mp rfl :
      detectar_origenes "que" = {"UE (Unión Europea)"})]
    exact Finset.mem_singleton_self _)

/-- C8: detection is a total function — the embedding returns a set for
every input with no failure cases — and both the empty string and a text
matching no pattern (`"Contenido neto: 1L"`) yield the empty set. -/
theorem C8_sin_excepciones :
    detectar_origenes "" = ∅ ∧ detectar_origenes "Contenido neto: 1L" = ∅ :=
  ⟨rfl, rfl⟩

/-- C9: filename-code extraction returns the leftmost occurrence of a `4`
followed by five digits, and the whole filename when no such occurrence
exists; in particular `"etiqueta_401234_v2.pdf"` yields `"401234"` and
`"etiqueta_generica.pdf"` yields itself. -/
theorem C9_extraer_codigo :
    extraer_codigo_archivo "etiqueta_401234_v2.pdf" = "401234" ∧
    extraer_codigo_archivo "etiqueta_generica.pdf" = "etiqueta_generica.pdf" ∧
    (∀ s : String, (∀ i, codigoAt s.data i = false) →
      extraer_codigo_archivo s = s) ∧
    (∀ (s : String) (i : Nat), codigoAt s.data i = true →
      ∃ j, j ≤ i ∧ codigoAt s.data j = true ∧
        (∀ k, k < j → codigoAt s.data k = false) ∧
        extraer_codigo_archivo s = sliceS s.data j (j + 6)) := by
  refine ⟨rfl, rfl, ?_, ?_⟩
  · intro s hall
    unfold extraer_codigo_archivo
    cases hb : buscarCodigoDesde s.data (s.data.length + 1) 0 with
    | none => rfl
    | some j =>
        obtain ⟨-, hj, -⟩ := buscarCodigoDesde_some s.data _ 0 j hb
        simp [hall j] at hj
  · intro s i hi
    cases hb : buscarCodigoDesde s.data (s.data.length + 1) 0 with
    | none =>
        have hlt := codigoAt_lt_length s.data i hi
        have := buscarCodigoDesde_none s.data _ 0 hb i (Nat.zero_le i)
          (by omega)
        simp [this] at hi
    | some j =>
        obtain ⟨-, hj, hmin⟩ := buscarCodigoDesde_some s.data _ 0 j hb
        have hji : j ≤ i := by
          by_contra hlt
          have hfi := hmin i (Nat.zero_le i) (by omega)
          simp [hfi] at hi
        refine ⟨j, hji, hj, fun k hk => hmin k (Nat.zero_le k) hk, ?_⟩
        unfold extraer_codigo_archivo
        rw [hb]

/-- Witness for C9: the pattern occurs at position 9 of
`"etiqueta_401234_v2.pdf"`, and extraction returns that slice. -/
theorem C9_extraer_codigo_witness :
    ∃ j, j ≤ 9 ∧ codigoAt "etiqueta_401234_v2.pdf".data j = true ∧
      (∀ k, k < j → codigoAt "etiqueta_401234_v2.pdf".data k = false) ∧
      extraer_codigo_archivo "etiqueta_401234_v2.pdf" =
        sliceS "etiqueta_401234_v2.pdf".data j (j + 6) :=
  C9_extraer_codigo.2.2.2 "etiqueta_401234_v2.pdf" 9 (by decide)

end Aceite
